import Mathlib

/-!
Verification of the coroio asynchronous networking runtime against its
specification.  The C++ sources under test are the repository's test
suite (`tests/tests.cpp`) and the example programs; the engine behind
the header `<coroio/all.hpp>` is not part of the sources, so where a
property depends on it the relevant operation is modelled from the
specification (each such definition says so in its doc comment) and
checked against the concrete behaviour the tests pin down.
All instants and durations are modelled as integer nanosecond counts.
-/

/-- A `timespec` value as produced by `GetTimespec`: whole seconds in
`tv_sec` and the remaining nanoseconds in `tv_nsec`. -/
structure Timespec where
  tv_sec : Int
  tv_nsec : Int
deriving DecidableEq, Repr

/-- Modelled from the spec: `GetTimespec(now, deadline, cap)` returns the
non-negative duration `min(deadline - now, cap)` clamped to be at least 0,
whole seconds in `tv_sec` and the fractional part in `tv_nsec` as
nanoseconds.  The implementation lives behind the missing header
`coroio/all.hpp`; the three vectors of `test_timespec` pin its behaviour
and are reproduced in `GetTimespec_test_vectors` below. -/
def GetTimespec (now deadline cap : Int) : Timespec :=
  let d := max (min (deadline - now) cap) 0
  { tv_sec := d / 1000000000, tv_nsec := d % 1000000000 }

/-- A timer entry of the poller: absolute deadline, monotonically
increasing id, and the wakeup token of the suspended frame. -/
structure TimerEntry where
  deadline : Int
  id : Nat
  token : Nat
deriving DecidableEq, Repr

/-- The timers that `fire_expired(now)` pops: all entries whose deadline
has been reached. -/
def expiredOf (now : Int) (ts : List TimerEntry) : List TimerEntry :=
  ts.filter (fun e => decide (e.deadline ≤ now))

/-- The timers that survive `fire_expired(now)`. -/
def remainingOf (now : Int) (ts : List TimerEntry) : List TimerEntry :=
  ts.filter (fun e => decide (now < e.deadline))

/-- Wakeup tokens resumed by the timer phase of a loop step at time `now`. -/
def firedTokens (now : Int) (ts : List TimerEntry) : List Nat :=
  (expiredOf now ts).map (·.token)

/-- Modelled from the spec: the resumption order of one `Loop::step` at
time `now` — expired timers are fired first, then the fd wakeups the
backend returned for the same step. -/
def stepResumptions (now : Int) (ts : List TimerEntry) (fdWakeups : List Nat) : List Nat :=
  firedTokens now ts ++ fdWakeups

/-- The four co-scheduled sleeps of `test_futures_any_same_wakeup`: four
timers sharing one identical deadline, with tokens 0..3. -/
def fourSleeps (d : Int) : List TimerEntry :=
  [⟨d, 0, 0⟩, ⟨d, 1, 1⟩, ⟨d, 2, 2⟩, ⟨d, 3, 3⟩]

/-- The event loop state used for the `Sleep` scenarios: the current
monotonic instant and the registered timers. -/
structure SleepLoop where
  now : Int
  timers : List TimerEntry
deriving DecidableEq, Repr

/-- Modelled from the spec: a run of `Loop::step`.  Each step lets the
monotonic clock advance by a non-negative amount chosen by the
environment, then fires exactly the timers whose deadline has been
reached; the trace records, per step, the clock value and the tokens
resumed at it. -/
def sleepRun : SleepLoop → List Int → List (Int × List Nat)
  | _, [] => []
  | s, a :: advs =>
    (s.now + max a 0, firedTokens (s.now + max a 0) s.timers)
      :: sleepRun ⟨s.now + max a 0, remainingOf (s.now + max a 0) s.timers⟩ advs

/-- Command-line state accumulated by the argument loop of
`examples/sslechoclient.cpp` (`main`, lines 59 to 74). -/
structure CliArgs where
  port : Int
  method : String
  debug : Bool
deriving DecidableEq, Repr

/-- Digit pass of `atoi`: consume the maximal leading run of decimal
digits, accumulating their value. -/
def atoiDigits : Int → List Char → Int
  | acc, c :: cs =>
    if c.isDigit then atoiDigits (acc * 10 + Int.ofNat (c.toNat - 48)) cs else acc
  | acc, [] => acc

/-- The value the C `atoi` produces on an argument string: leading
whitespace is skipped, one optional sign is consumed, and the maximal
leading run of decimal digits is read, yielding 0 when there is none —
so `atoi` of `12x` is 12 and of `wtf` is 0.  Overflow is undefined
behaviour in C and is not exercised by any scenario here. -/
def atoiModel (s : String) : Int :=
  match s.toList.dropWhile
      (fun c => c == ' ' || c == '\t' || c == '\n' || c == '\x0b' || c == '\x0c' || c == '\r') with
  | '-' :: cs => - atoiDigits 0 cs
  | '+' :: cs => atoiDigits 0 cs
  | cs => atoiDigits 0 cs

/-- The argument loop of `sslechoclient.cpp` lines 65 to 73: `--port` and
`--method` consume the following argument when one exists, `--debug` sets
the flag, and anything else is skipped. -/
def parseArgsLoop : List String → CliArgs → CliArgs
  | [], acc => acc
  | "--port" :: v :: rest, acc => parseArgsLoop rest { acc with port := atoiModel v }
  | "--method" :: v :: rest, acc => parseArgsLoop rest { acc with method := v }
  | "--debug" :: rest, acc => parseArgsLoop rest { acc with debug := true }
  | _ :: rest, acc => parseArgsLoop rest acc

/-- The compile-time feature set of the example binary (HAVE_OPENSSL,
HAVE_EPOLL, HAVE_URING, HAVE_KQUEUE, HAVE_IOCP). -/
structure BuildCfg where
  haveOpenssl : Bool
  haveEpoll : Bool
  haveUring : Bool
  haveKqueue : Bool
  haveIocp : Bool
deriving DecidableEq, Repr

/-- Numeric value of a digit run, for the dotted-quad range check. -/
def octetVal (s : List Char) : Nat :=
  s.foldl (fun a c => a * 10 + (c.toNat - 48)) 0

/-- One component of an IPv4 dotted-quad literal: one to three decimal
digits, no leading zero, value at most 255, as `inet_pton` accepts. -/
def isIPv4Octet (s : List Char) : Bool :=
  !s.isEmpty && s.all (fun c => c.isDigit) && decide (s.length ≤ 3)
    && decide (octetVal s ≤ 255) && (decide (s.length = 1) || s.head? != some '0')

/-- Recogniser for IPv4 dotted-quad literals: four octets separated by
dots. -/
def isIPv4Lit (s : String) : Bool :=
  let parts := s.toList.splitOn '.'
  decide (parts.length = 4) && parts.all isIPv4Octet

/-- Modelled from the spec (section 4.7): `TAddress` construction parses
an IPv4 dotted-quad or an IPv6 literal, and anything else is
`InvalidAddress`; `test_bad_addr` shows the rejection is a thrown
exception.  IPv4 literals are recognised exactly; for IPv6 the model only
demands the necessary colon, over-approximating the accepted set — so
whenever this model rejects a string (in particular the empty string,
which has neither four octets nor a colon), the real parser rejects it
too. -/
def addrParseOk (s : String) : Bool :=
  isIPv4Lit s || s.toList.contains ':'

/-- Observable outcome of one process run of an example `main`: a reached
`return` with the printed stderr lines, or an abort through the uncaught
`InvalidAddress` exception, which terminates the process with a non-zero
status before the dispatch prints anything. -/
inductive ExitOutcome
  | exited (stderrLines : List String) (code : Int)
  | abortedInvalidAddress
deriving DecidableEq, Repr

/-- The backend dispatch of `sslechoclient.cpp` `main`, lines 77 to 113:
the code that runs once the address has been constructed, as the stderr
lines printed and the exit code returned.  Every branch — the matched
backends, the `Unknown method` branch and the missing-OpenSSL branch —
falls through to the single unconditional `return 0` at line 113.  The
theorems below only evaluate this dispatch on branches that never enter a
`run` call, so no outcome of `run` is assumed. -/
def sslEchoClientDispatch (cfg : BuildCfg) (method : String) : List String × Int :=
  let log := ["Method: " ++ method]
  if cfg.haveOpenssl then
    if method = "select" then (log, 0)
    else if method = "poll" then (log, 0)
    else if cfg.haveEpoll ∧ method = "epoll" then (log, 0)
    else if cfg.haveUring ∧ method = "uring" then (log, 0)
    else if cfg.haveKqueue ∧ method = "kqueue" then (log, 0)
    else if cfg.haveIocp ∧ method = "iocp" then (log, 0)
    else (log ++ ["Unknown method"], 0)
  else (log ++ ["coroio compiled without openssl support"], 0)

/-- The `main` of `examples/sslechoclient.cpp` (lines 59 to 114).  The
local `addr` declared empty at line 61 is never assigned afterwards — the
argument loop knows only `--port`, `--method` and `--debug` — so line 76
always constructs `TAddress{"", port}`.  When that construction throws
`InvalidAddress` the exception is uncaught and the process aborts with a
non-zero status; only otherwise does control reach the dispatch. -/
def sslEchoClientMain (cfg : BuildCfg) (args : List String) : ExitOutcome :=
  let a := parseArgsLoop args { port := 0, method := "select", debug := false }
  let _port : Int := if a.port = 0 then 8888 else a.port
  let addr : String := ""
  if addrParseOk addr then
    ExitOutcome.exited (sslEchoClientDispatch cfg a.method).1
      (sslEchoClientDispatch cfg a.method).2
  else
    ExitOutcome.abortedInvalidAddress

/-- Modelled from the spec: `ReadUntil(delim)` consumes bytes up to and
including the first occurrence of `delim` and keeps the remainder
buffered for the next call.  `some (pre, rest)` means `pre` is returned
(ending in `delim`) and `rest` stays buffered; `none` means the delimiter
never arrives before the stream ends. -/
def splitUntil (delim : List Char) : List Char → Option (List Char × List Char)
  | [] => none
  | c :: cs =>
    if (c :: cs).take delim.length = delim then
      some (delim, (c :: cs).drop delim.length)
    else
      match splitUntil delim cs with
      | some (pre, rest) => some (c :: pre, rest)
      | none => none

/-- The newline delimiter used by `test_read_until`. -/
def nl : List Char := ['\n']

/-- The byte stream written by the sender in `test_read_until`
(tests.cpp lines 552 to 605). -/
def testStream : List Char := "line1\nline2\nline3\nline4\nline9\n".toList

/-- The receiver of `test_read_until`: two `ReadUntil("\n")` calls, one
explicit one-byte `Read`, then another `ReadUntil("\n")`; the one-byte
read consumes exactly one byte from the buffered tail. -/
def readUntilScenario : Option (List Char × List Char × List Char) :=
  match splitUntil nl testStream with
  | none => none
  | some (l1, s1) =>
    match splitUntil nl s1 with
    | none => none
    | some (l2, s2) =>
      let s3 := s2.drop 1
      match splitUntil nl s3 with
      | none => none
      | some (l3, _) => some (l1, l2, l3)

/-- Initial-suspend policy of a coroutine type: `lazy` suspends at entry
and waits for a first resumption, `eager` runs the body immediately on
invocation. -/
inductive StartPolicy
  | lazy
  | eager
deriving DecidableEq, Repr

/-- Invoking a coroutine whose observable effect on state `σ` is `body`:
under eager start the body runs at the call; under lazy start nothing
runs until a first resumption, which the creation-time scenarios below
never perform (they step no loop and attach no awaiter). -/
def invokeCoro {σ : Type} : StartPolicy → (σ → σ) → σ → σ
  | .eager, body, s => body s
  | .lazy, _, s => s

/-- Awaiting a future from inside a running body: a ready value continues
the body, a pending future leaves the body suspended, so the rest of it
contributes nothing to the state. -/
def awaitFuture {α σ : Type} (fut : Option α) (k : α → σ → σ) (s : σ) : σ :=
  match fut with
  | some v => k v s
  | none => s

/-- The body of `test_future_chaining` (tests.cpp lines 914 to 930) under
a given start policy: `intFuture` co_returns 1, `doubleFuture` is
`intFuture.Apply(value * 1.5)`, and an outer coroutine stores
`co_await doubleFuture` into `val`, which starts at -1.  The test steps
no loop before asserting on `val`. -/
def futureChainingVal (p : StartPolicy) : Rat :=
  let intFuture : Option Int := invokeCoro p (fun _ => some 1) none
  let doubleFuture : Option Rat :=
    invokeCoro p
      (fun _ => awaitFuture intFuture (fun v _ => some ((v : Rat) * (3 / 2))) none)
      none
  invokeCoro p (fun val => awaitFuture doubleFuture (fun v _ => v) val) (-1)

/-- The first half of `test_futures_all` (tests.cpp lines 1056 to 1084)
under a start policy: four coroutines co_return 1..4, `All` gathers their
results in input order, and the outer coroutine stores the vector into
`r`, which starts empty.  The test steps no loop before asserting on
`r`. -/
def futuresAllR (p : StartPolicy) : List Int :=
  let f1 : Option Int := invokeCoro p (fun _ => some 1) none
  let f2 : Option Int := invokeCoro p (fun _ => some 2) none
  let f3 : Option Int := invokeCoro p (fun _ => some 3) none
  let f4 : Option Int := invokeCoro p (fun _ => some 4) none
  let allF : Option (List Int) :=
    invokeCoro p
      (fun _ =>
        awaitFuture f1 (fun a _ =>
          awaitFuture f2 (fun b _ =>
            awaitFuture f3 (fun c _ =>
              awaitFuture f4 (fun d _ => some [a, b, c, d]) none) none) none) none)
      none
  invokeCoro p (fun r => awaitFuture allF (fun v _ => v) r) []

/-- Poller bookkeeping for the connect-with-deadline scenarios: the
pending write interests as `(fd, token)` pairs — at most one per fd —
and the registered timers. -/
structure PollerState where
  interests : List (Nat × Nat)
  timers : List TimerEntry
deriving DecidableEq, Repr

/-- Register a write interest for `fd`, replacing any prior one. -/
def addWrite (fd tk : Nat) (s : PollerState) : PollerState :=
  { s with interests := (fd, tk) :: s.interests.filter (fun p => decide (p.1 ≠ fd)) }

/-- `RemoveEvent(fd)`: cancel any pending interest for `fd`. -/
def removeEvent (fd : Nat) (s : PollerState) : PollerState :=
  { s with interests := s.interests.filter (fun p => decide (p.1 ≠ fd)) }

/-- Register a timer. -/
def addTimer (d : Int) (i tk : Nat) (s : PollerState) : PollerState :=
  { s with timers := ⟨d, i, tk⟩ :: s.timers }

/-- Cancel the timer with id `i`; a no-op if it already fired or is
unknown. -/
def cancelTimer (i : Nat) (s : PollerState) : PollerState :=
  { s with timers := s.timers.filter (fun e => decide (e.id ≠ i)) }

/-- Modelled from the spec: `connect(addr, deadline)` issues the
non-blocking connect, registers a write interest for the socket and a
deadline timer for the awaiting frame. -/
def connectStart (fd tk : Nat) (d : Int) (i : Nat) (s : PollerState) : PollerState :=
  addTimer d i tk (addWrite fd tk s)

/-- Outcome of the awaited connect. -/
inductive ConnectResult
  | ok
  | timedOut
deriving DecidableEq, Repr

/-- Modelled from the spec: when the deadline timer fires before any
socket event, the connect fails with `TimedOut` and the pending backend
interest for the socket is removed, so the dead frame can receive no
spurious wakeup. -/
def connectDeadlineFire (fd i : Nat) (s : PollerState) : PollerState × ConnectResult :=
  (removeEvent fd (cancelTimer i s), ConnectResult.timedOut)

/-- The wakeup tokens the backend could still deliver: one per registered
interest. -/
def deliverable (s : PollerState) : List Nat := s.interests.map (·.2)

/-- A subsequent `Sleep` on the same poller: it only registers a fresh
timer. -/
def sleepAfter (d : Int) (i tk : Nat) (s : PollerState) : PollerState :=
  addTimer d i tk s

/-- Registration of `Any` over sleeps: input `i` of duration `xs[i].1`
becomes the timer `(deadline xs[i].1, id i, token i)` (all sleeps start
at instant 0, ids follow input order). -/
def regTimers : Nat → List (Int × Int) → List TimerEntry
  | _, [] => []
  | i, (d, _) :: xs => ⟨d, i, i⟩ :: regTimers (i + 1) xs

/-- `next_deadline()`: the minimal deadline across live timers. -/
def minDeadline : List TimerEntry → Option Int
  | [] => none
  | e :: ts =>
    match minDeadline ts with
    | none => some e.deadline
    | some m => some (min e.deadline m)

/-- The first timer resumed by `fire_expired`: the least entry in the
(deadline, id) order, matching the non-decreasing pop order of the
spec. -/
def pickWinner : List TimerEntry → Option TimerEntry
  | [] => none
  | e :: ts =>
    match pickWinner ts with
    | none => some e
    | some w =>
      some (if e.deadline < w.deadline ∨ (e.deadline = w.deadline ∧ e.id ≤ w.id) then e else w)

/-- Modelled from the spec: `Any` over a vector of sleeping futures.  The
loop waits until the next deadline; `fire_expired` pops every ripe timer
and resumes the least (deadline, id) entry first; its future completes,
`Any` completes with that winner's value and cancels every remaining
input, removing the losers' timers.  Returns (result, completion instant,
timers left after the drain). -/
def anyRun (xs : List (Int × Int)) : Option Int × Option Int × List TimerEntry :=
  match minDeadline (regTimers 0 xs) with
  | none => (none, none, regTimers 0 xs)
  | some now =>
    match pickWinner (expiredOf now (regTimers 0 xs)) with
    | none => (none, some now, remainingOf now (regTimers 0 xs))
    | some w =>
      ((xs.get? w.id).map Prod.snd, some now,
        (remainingOf now (regTimers 0 xs)).filter (fun e => decide (e.id = w.id)))

/-- The platforms the tests distinguish. -/
inductive Platform
  | linux
  | macos
  | windows
deriving DecidableEq, Repr

/-- The socket errors the refused-connection tests observe. -/
inductive SockErr
  | econnrefused
  | epipe
  | timedOut
deriving DecidableEq, Repr

/-- The two socket operations raced against a refused connection. -/
inductive SockOp
  | readSome
  | writeSome
deriving DecidableEq, Repr

/-- Modelled from the spec (sections 4.5 and 7) and the per-platform
comments in the tests: connecting with a deadline to a port nobody
listens on either fails at `Connect` itself — the RST as ECONNREFUSED on
Linux, the deadline as timed_out on Windows — or, on macOS, lets the
error surface at the first subsequent operation. -/
def connectRefusedError : Platform → Option SockErr
  | .linux => some .econnrefused
  | .windows => some .timedOut
  | .macos => none

/-- Modelled from the spec: the error of the first operation on the
refused connection when `Connect` itself did not fail.  A read observes
the RST as ECONNREFUSED; only the write path can observe EPIPE, which it
does on macOS. -/
def refusedOpError : Platform → SockOp → SockErr
  | .macos, .writeSome => .epipe
  | _, _ => .econnrefused

/-- The error observed by `test_connection_refused_on_read` and
`test_connection_refused_on_write`: connect with a deadline, then perform
one operation; whichever of the two fails first determines the error. -/
def refusedScenarioError (p : Platform) (op : SockOp) : SockErr :=
  match connectRefusedError p with
  | some e => e
  | none => refusedOpError p op

/-- Modelled from the spec (section 4.2, completion family) and POSIX
pipe-read semantics: submit `Read(fd, buf, n)` on a pipe currently
holding `pipe` and call `Wait()` once.  With data available the read
completes at once with `min n available` bytes — it does not block until
the whole buffer fills.  Returns (completions delivered by the `Wait`,
the completion result, the bytes placed into the buffer). -/
def uringReadWait (pipe : List Char) (n : Nat) : Nat × Int × List Char :=
  if pipe.isEmpty then
    (0, 0, [])
  else
    (1, ((min n pipe.length : Nat) : Int), pipe.take (min n pipe.length))

/-- The three concrete vectors of `test_timespec` (times in nanoseconds):
the model reproduces the asserted `(tv_sec, tv_nsec)` pairs, with the
10 s `maxDiration` cap of the test. -/
theorem GetTimespec_test_vectors :
    GetTimespec 4000000000 10000000000 10000000000 = ⟨6, 0⟩
    ∧ GetTimespec 4000000000 10001000000 10000000000 = ⟨6, 1000000⟩
    ∧ GetTimespec 4000000000 600000000000000 10000000000 = ⟨10, 0⟩ := by
  decide

/-- C7: for all instants `a ≤ b` and cap `c ≥ 0`, `GetTimespec a b c`
represents the non-negative duration `min (b - a) c`: whole seconds in
`tv_sec`, the fractional part in `tv_nsec` as nanoseconds in
`[0, 10^9)`. -/
theorem GetTimespec_represents_min (a b c : Int) (hab : a ≤ b) (hc : 0 ≤ c) :
    (GetTimespec a b c).tv_sec * 1000000000 + (GetTimespec a b c).tv_nsec
        = min (b - a) c
    ∧ 0 ≤ (GetTimespec a b c).tv_sec
    ∧ 0 ≤ (GetTimespec a b c).tv_nsec
    ∧ (GetTimespec a b c).tv_nsec < 1000000000 := by
  have hd0 : 0 ≤ min (b - a) c := le_min (by omega) hc
  simp only [GetTimespec, max_eq_left hd0]
  generalize min (b - a) c = d at hd0 ⊢
  refine ⟨?_, ?_, ?_, ?_⟩ <;> omega

/-- Witness for C7 at the first vector of `test_timespec`: now 4 s,
deadline 10 s, cap 10 s, all in nanoseconds. -/
theorem GetTimespec_represents_min_witness :
    ((4000000000 : Int) ≤ 10000000000 ∧ (0 : Int) ≤ 10000000000)
    ∧ ((GetTimespec 4000000000 10000000000 10000000000).tv_sec * 1000000000
          + (GetTimespec 4000000000 10000000000 10000000000).tv_nsec
        = min ((10000000000 : Int) - 4000000000) 10000000000
      ∧ 0 ≤ (GetTimespec 4000000000 10000000000 10000000000).tv_sec
      ∧ 0 ≤ (GetTimespec 4000000000 10000000000 10000000000).tv_nsec
      ∧ (GetTimespec 4000000000 10000000000 10000000000).tv_nsec < 1000000000) :=
  ⟨⟨by norm_num, by norm_num⟩,
   GetTimespec_represents_min 4000000000 10000000000 10000000000 (by norm_num) (by norm_num)⟩

/-- The address model agrees with the address tests: the literals of
`test_addr` and `test_addr6` are accepted, while the `test_bad_addr`
literal and the empty string are rejected. -/
theorem addrParseOk_test_vectors :
    addrParseOk "127.0.0.1" = true ∧ addrParseOk "::1" = true
    ∧ addrParseOk "wtf" = false ∧ addrParseOk "" = false := by
  decide

/-- C3: evaluation of the `sslechoclient` `main` at the failing input
`--method wtf` with every backend compiled in.  The run aborts through
the uncaught `InvalidAddress` from line 76 — `addr` is never assigned and
the empty string is no address literal — so the process dies with a
non-zero status before the dispatch; the initialisation-failure branch
the claim is about, evaluated on its own, prints `Unknown method` and
returns exit code 0 rather than the claimed non-zero, as does the
missing-OpenSSL branch; and the would-be clean input `--method select`
aborts identically, so no run of this program reaches a clean shutdown
that could return 0. -/
theorem sslEchoClient_exit_code_bug :
    sslEchoClientMain ⟨true, true, true, true, true⟩ ["--method", "wtf"]
      = ExitOutcome.abortedInvalidAddress
    ∧ sslEchoClientDispatch ⟨true, true, true, true, true⟩ "wtf"
        = (["Method: wtf", "Unknown method"], 0)
    ∧ sslEchoClientDispatch ⟨false, true, true, true, true⟩ "select"
        = (["Method: select", "coroio compiled without openssl support"], 0)
    ∧ sslEchoClientMain ⟨true, true, true, true, true⟩ ["--method", "select"]
      = ExitOutcome.abortedInvalidAddress := by
  decide

/-- Soundness of the buffered-reader split: whatever `ReadUntil` returns
is an exact prefix of the stream ending in the delimiter, and the
remainder it keeps buffered is exactly the rest of the stream. -/
theorem splitUntil_sound (delim : List Char) :
    ∀ (s pre rest : List Char), splitUntil delim s = some (pre, rest) →
      pre ++ rest = s ∧ ∃ u, pre = u ++ delim := by
  intro s
  induction s with
  | nil =>
    intro pre rest h
    exact Option.noConfusion h
  | cons c cs ih =>
    intro pre rest h
    simp only [splitUntil] at h
    split at h
    · rename_i hd
      rw [Option.some.injEq, Prod.mk.injEq] at h
      obtain ⟨hpre, hrest⟩ := h
      subst hpre
      subst hrest
      refine ⟨?_, ⟨[], rfl⟩⟩
      nth_rewrite 1 [← hd]
      exact List.take_append_drop delim.length (c :: cs)
    · split at h
      · rename_i p r heq
        rw [Option.some.injEq, Prod.mk.injEq] at h
        obtain ⟨hpre, hrest⟩ := h
        subst hpre
        subst hrest
        obtain ⟨happ, u, hu⟩ := ih p r heq
        exact ⟨by rw [List.cons_append, happ], ⟨c :: u, by rw [hu, List.cons_append]⟩⟩
      · exact Option.noConfusion h

/-- C6: `ReadUntil(delim)` returns the bytes up to and including the
delimiter and buffers the tail, and on the `test_read_until` stream the
sequence read_until, read_until, one-byte read, read_until yields
`line1\n`, `line2\n`, `ine3\n` — the one-byte read consumed exactly one
byte of the buffered third line. -/
theorem readUntil_including_delim (delim s pre rest : List Char)
    (h : splitUntil delim s = some (pre, rest)) :
    (pre ++ rest = s ∧ ∃ u, pre = u ++ delim)
    ∧ readUntilScenario
        = some ("line1\n".toList, "line2\n".toList, "ine3\n".toList) :=
  ⟨splitUntil_sound delim s pre rest h, by decide⟩

/-- Witness for C6 at the first `ReadUntil` of the test stream. -/
theorem readUntil_including_delim_witness :
    splitUntil nl testStream
      = some ("line1\n".toList, "line2\nline3\nline4\nline9\n".toList)
    ∧ (("line1\n".toList ++ "line2\nline3\nline4\nline9\n".toList = testStream
        ∧ ∃ u, "line1\n".toList = u ++ nl)
      ∧ readUntilScenario
          = some ("line1\n".toList, "line2\n".toList, "ine3\n".toList)) :=
  ⟨by decide,
   readUntil_including_delim nl testStream "line1\n".toList
     "line2\nline3\nline4\nline9\n".toList (by decide)⟩

/-- C1 counterexample: under the lazy-start semantics the claim asserts,
the creation-time asserts of the tests would fail — `test_future_chaining`
would still see `val = -1` instead of the asserted `1.5`, and
`test_futures_all` would still see `r = []` instead of the asserted
`[1, 2, 3, 4]` — because nothing ever resumes the frames before the
asserts run (the tests step no loop and attach no awaiter). -/
theorem lazy_start_contradicts_tests :
    futureChainingVal .lazy = -1 ∧ futureChainingVal .lazy ≠ 3 / 2
    ∧ futuresAllR .lazy = [] ∧ futuresAllR .lazy ≠ [1, 2, 3, 4] := by
  have h1 : futureChainingVal .lazy = -1 := rfl
  exact ⟨h1, by rw [h1]; norm_num, rfl, by decide⟩

/-- C1 amended: coroutine invocation is eager — the frame body runs
immediately at creation, so a coroutine that awaits only already-completed
futures completes, side effects included, before any containing await or
`Loop::run_until` resumes anything; this is exactly what the
creation-time asserts of `test_future_chaining` (`val == 1.5`) and
`test_futures_all` (`r == {1, 2, 3, 4}`) observe. -/
theorem eager_start_matches_tests :
    futureChainingVal .eager = 3 / 2 ∧ futuresAllR .eager = [1, 2, 3, 4] := by
  have h1 : futureChainingVal .eager = ((1 : Int) : Rat) * (3 / 2) := rfl
  exact ⟨by rw [h1]; norm_num, by decide⟩

/-- C2: on a loop step the expired timers are always resumed before the
fd wakeups of that same step, and four co-scheduled sleeps sharing one
deadline `d` all wake on the step whose clock reaches `d`, ahead of every
fd wakeup of that step. -/
theorem timers_fire_before_fd_wakeups (now d : Int) (w : List Nat) (hd : d ≤ now) :
    (∀ ts, stepResumptions now ts w = firedTokens now ts ++ w)
    ∧ stepResumptions now (fourSleeps d) w = [0, 1, 2, 3] ++ w := by
  refine ⟨fun ts => rfl, ?_⟩
  simp [stepResumptions, firedTokens, expiredOf, fourSleeps, hd]

/-- Witness for C2: deadline 100 reached at clock 100, one fd wakeup with
token 9. -/
theorem timers_fire_before_fd_wakeups_witness :
    ((100 : Int) ≤ 100)
    ∧ ((∀ ts, stepResumptions 100 ts [9] = firedTokens 100 ts ++ [9])
      ∧ stepResumptions 100 (fourSleeps 100) [9] = [0, 1, 2, 3] ++ [9]) :=
  ⟨by norm_num, timers_fire_before_fd_wakeups 100 100 [9] (by norm_num)⟩

/-- C9: on every platform the refused-connect-then-ReadSome scenario
surfaces ECONNREFUSED or timed_out and never EPIPE, while the WriteSome
path may additionally surface EPIPE — it does on macOS. -/
theorem refused_read_never_epipe :
    (∀ p, refusedScenarioError p .readSome ≠ .epipe
      ∧ (refusedScenarioError p .readSome = .econnrefused
        ∨ refusedScenarioError p .readSome = .timedOut))
    ∧ refusedScenarioError .macos .writeSome = .epipe := by
  refine ⟨fun p => ?_, rfl⟩
  cases p <;> exact ⟨by decide, by decide⟩

/-- C10: a completion-backend read submitted with a buffer larger than
the bytes currently available completes after one `Wait` with result
equal to the number of bytes actually available — a short read, not a
block until the buffer fills. -/
theorem uring_short_read (pipe : List Char) (n : Nat)
    (h1 : pipe ≠ []) (h2 : pipe.length ≤ n) :
    uringReadWait pipe n = (1, (pipe.length : Int), pipe) := by
  obtain ⟨c, cs, rfl⟩ : ∃ c cs, pipe = c :: cs := by
    cases pipe with
    | nil => exact absurd rfl h1
    | cons c cs => exact ⟨c, cs, rfl⟩
  simp only [List.length_cons] at h2
  simp [uringReadWait]
  omega

/-- Witness for C10 at the `test_uring_read_more_than_write` input: one
byte `e` in the pipe, a 10-byte buffer; `Wait` returns 1 completion,
`Result` is 1, and the buffer holds the one byte. -/
theorem uring_short_read_witness :
    ((['e'] : List Char) ≠ [] ∧ (['e'] : List Char).length ≤ 10)
    ∧ uringReadWait ['e'] 10 = (1, 1, ['e']) :=
  ⟨⟨by decide, by decide⟩, uring_short_read ['e'] 10 (by decide) (by decide)⟩

/-- Every token resumed anywhere along a loop run belongs to a timer
registered at the start of the run and is resumed only at an instant at
or after that timer's deadline. -/
theorem sleepRun_fired_sound :
    ∀ (advs : List Int) (s : SleepLoop) (n : Int) (toks : List Nat),
      (n, toks) ∈ sleepRun s advs → ∀ tk ∈ toks,
        ∃ e ∈ s.timers, e.token = tk ∧ e.deadline ≤ n := by
  intro advs
  induction advs with
  | nil =>
    intro s n toks h
    simp [sleepRun] at h
  | cons a advs ih =>
    intro s n toks h tk htk
    simp only [sleepRun, List.mem_cons] at h
    rcases h with h | h
    · rw [Prod.mk.injEq] at h
      obtain ⟨hn, htoks⟩ := h
      subst hn
      subst htoks
      simp only [firedTokens, expiredOf, List.mem_map, List.mem_filter,
        decide_eq_true_eq] at htk
      obtain ⟨e, ⟨he, hed⟩, hetk⟩ := htk
      exact ⟨e, he, hetk, hed⟩
    · obtain ⟨e, he, hetk, hed⟩ :=
        ih ⟨s.now + max a 0, remainingOf (s.now + max a 0) s.timers⟩ n toks h tk htk
      exact ⟨e, (List.mem_filter.mp he).1, hetk, hed⟩

/-- C8: a coroutine that awaits `Sleep(t)` starting at instant `start`
(so its timer deadline is `start + t`) is resumed only at a step whose
clock instant is at least `start + t`, whatever the clock advances of the
run are. -/
theorem sleep_resumes_after_deadline (start t : Int) (tk : Nat) (advs : List Int)
    (n : Int) (toks : List Nat)
    (h : (n, toks) ∈ sleepRun ⟨start, [⟨start + t, 0, tk⟩]⟩ advs)
    (htk : tk ∈ toks) :
    start + t ≤ n := by
  obtain ⟨e, he, _, hed⟩ := sleepRun_fired_sound advs _ n toks h tk htk
  simp only [List.mem_singleton] at he
  subst he
  exact hed

/-- Witness for C8: a sleep of 100 starting at instant 0, with the clock
advancing by 200 in one step; the resumption instant 200 is at least
0 + 100. -/
theorem sleep_resumes_after_deadline_witness :
    ((200, [5]) ∈ sleepRun ⟨0, [⟨0 + 100, 0, 5⟩]⟩ [200] ∧ 5 ∈ [5])
    ∧ (0 : Int) + 100 ≤ 200 :=
  ⟨⟨by decide, by decide⟩,
   sleep_resumes_after_deadline 0 100 5 [200] 200 [5] (by decide) (by decide)⟩

/-- C4: when `connect(addr, deadline)` sees no socket event before the
deadline, the awaited connect fails with `TimedOut`, the pending backend
interest is removed — the dead frame's token is no longer deliverable by
the backend, assuming the token is fresh — and a `Sleep` issued
afterwards on the same poller completes normally: its own token fires as
soon as the clock reaches its deadline. -/
theorem connect_timeout_cleanup
    (fd tk i i2 tk2 : Nat) (d d2 now : Int) (s : PollerState)
    (htk : ∀ p ∈ s.interests, p.2 ≠ tk) (hnow : d2 ≤ now) :
    (connectDeadlineFire fd i (connectStart fd tk d i s)).2 = ConnectResult.timedOut
    ∧ tk ∉ deliverable (connectDeadlineFire fd i (connectStart fd tk d i s)).1
    ∧ tk2 ∈ firedTokens now
        (sleepAfter d2 i2 tk2 (connectDeadlineFire fd i (connectStart fd tk d i s)).1).timers := by
  refine ⟨rfl, ?_, ?_⟩
  · intro hmem
    simp only [connectDeadlineFire, connectStart, addTimer, addWrite, removeEvent,
      cancelTimer, deliverable, List.mem_map] at hmem
    obtain ⟨p, hp, hptk⟩ := hmem
    rw [List.mem_filter] at hp
    obtain ⟨hp1, hpfd⟩ := hp
    rcases List.mem_cons.mp hp1 with rfl | hp2
    · simp at hpfd
    · exact htk p (List.mem_filter.mp hp2).1 hptk
  · simp only [connectDeadlineFire, connectStart, sleepAfter, addTimer, addWrite,
      removeEvent, cancelTimer, firedTokens, expiredOf]
    simp [List.filter_cons, hnow]

/-- Witness for C4 at concrete values: fd 3, a connect token 7 with
deadline 10, then a sleep with token 8 and deadline 110, fired at clock
110, all on an initially empty poller. -/
theorem connect_timeout_cleanup_witness :
    ((∀ p ∈ ([] : List (Nat × Nat)), p.2 ≠ 7) ∧ (110 : Int) ≤ 110)
    ∧ ((connectDeadlineFire 3 0 (connectStart 3 7 10 0 ⟨[], []⟩)).2 = ConnectResult.timedOut
      ∧ 7 ∉ deliverable (connectDeadlineFire 3 0 (connectStart 3 7 10 0 ⟨[], []⟩)).1
      ∧ 8 ∈ firedTokens 110
          (sleepAfter 110 1 8 (connectDeadlineFire 3 0 (connectStart 3 7 10 0 ⟨[], []⟩)).1).timers) :=
  ⟨⟨by simp, by norm_num⟩,
   connect_timeout_cleanup 3 7 0 1 8 10 110 110 ⟨[], []⟩ (by simp) (by norm_num)⟩

/-- Characterisation of the registered `Any` timers: every entry comes
from the input at some index `j`, carries that input's duration as its
deadline and `i + j` as both id and token. -/
theorem mem_regTimers {e : TimerEntry} :
    ∀ {i : Nat} {xs : List (Int × Int)}, e ∈ regTimers i xs →
      ∃ j p, xs.get? j = some p ∧ e = ⟨p.1, i + j, i + j⟩ := by
  intro i xs
  induction xs generalizing i with
  | nil =>
    intro h
    simp [regTimers] at h
  | cons q xs ih =>
    obtain ⟨d0, v0⟩ := q
    intro h
    simp only [regTimers] at h
    rcases List.mem_cons.mp h with rfl | h2
    · exact ⟨0, (d0, v0), rfl, by simp⟩
    · obtain ⟨j, p, hg, he⟩ := ih h2
      refine ⟨j + 1, p, by simpa using hg, ?_⟩
      rw [he]
      have harith : i + 1 + j = i + (j + 1) := by omega
      rw [harith]

/-- Completeness: the input at index `j` does register a timer. -/
theorem regTimers_mem_of :
    ∀ {i j : Nat} {xs : List (Int × Int)} {p : Int × Int}, xs.get? j = some p →
      (⟨p.1, i + j, i + j⟩ : TimerEntry) ∈ regTimers i xs := by
  intro i j xs
  induction xs generalizing i j with
  | nil =>
    intro p h
    simp at h
  | cons q xs ih =>
    obtain ⟨d0, v0⟩ := q
    intro p h
    cases j with
    | zero =>
      have hp : (d0, v0) = p := Option.some.inj h
      subst hp
      simp [regTimers]
    | succ j =>
      have h2 : xs.get? j = some p := h
      simp only [regTimers, List.mem_cons]
      right
      have harith : i + (j + 1) = i + 1 + j := by omega
      rw [harith]
      exact ih h2

/-- A `minDeadline` of `none` means there are no timers at all. -/
theorem minDeadline_eq_none {ts : List TimerEntry} (h : minDeadline ts = none) :
    ts = [] := by
  cases ts with
  | nil => rfl
  | cons a ts =>
    simp only [minDeadline] at h
    split at h <;> exact Option.noConfusion h

/-- `next_deadline()` is a lower bound of every live timer's deadline. -/
theorem minDeadline_le :
    ∀ {ts : List TimerEntry} {m : Int}, minDeadline ts = some m →
      ∀ e ∈ ts, m ≤ e.deadline := by
  intro ts
  induction ts with
  | nil =>
    intro m h
    simp [minDeadline] at h
  | cons a ts ih =>
    intro m h e he
    simp only [minDeadline] at h
    rcases List.mem_cons.mp he with rfl | he2
    · split at h
      · cases h
        exact le_refl _
      · cases h
        exact min_le_left _ _
    · split at h
      · rename_i hnone
        rw [minDeadline_eq_none hnone] at he2
        simp at he2
      · rename_i m2 hm2
        cases h
        exact le_trans (min_le_right _ _) (ih hm2 e he2)

/-- `next_deadline()` is attained by some live timer. -/
theorem minDeadline_mem :
    ∀ {ts : List TimerEntry} {m : Int}, minDeadline ts = some m →
      ∃ e ∈ ts, e.deadline = m := by
  intro ts
  induction ts with
  | nil =>
    intro m h
    simp [minDeadline] at h
  | cons a ts ih =>
    intro m h
    simp only [minDeadline] at h
    split at h
    · cases h
      exact ⟨a, List.mem_cons_self a ts, rfl⟩
    · rename_i m2 hm2
      cases h
      rcases le_total a.deadline m2 with hle | hle
      · exact ⟨a, List.mem_cons_self a ts, (min_eq_left hle).symm⟩
      · obtain ⟨e, he, hed⟩ := ih hm2
        exact ⟨e, List.mem_cons_of_mem a he, by rw [hed]; exact (min_eq_right hle).symm⟩

/-- The entry `fire_expired` resumes first is one of the ripe entries. -/
theorem pickWinner_mem :
    ∀ {ts : List TimerEntry} {w : TimerEntry}, pickWinner ts = some w → w ∈ ts := by
  intro ts
  induction ts with
  | nil =>
    intro w h
    simp [pickWinner] at h
  | cons a ts ih =>
    intro w h
    simp only [pickWinner] at h
    split at h
    · cases h
      exact List.mem_cons_self a ts
    · rename_i w2 hw2
      cases h
      split
      · exact List.mem_cons_self a ts
      · exact List.mem_cons_of_mem a (ih hw2)

/-- `pickWinner` only fails on an empty batch. -/
theorem pickWinner_eq_none {ts : List TimerEntry} (h : pickWinner ts = none) :
    ts = [] := by
  cases ts with
  | nil => rfl
  | cons a ts =>
    simp only [pickWinner] at h
    split at h <;> exact Option.noConfusion h

/-- C5: `Any` over a vector of sleeping futures completes at the first
deadline to fire, its result is the value of the input with the shortest
duration regardless of that input's position, and after the loop drains
no timers remain beyond the winner — the losers' timers were cancelled. -/
theorem any_result_is_min_sleep (xs : List (Int × Int)) (d v : Int)
    (hmem : (d, v) ∈ xs)
    (hmin : ∀ p ∈ xs, p ≠ (d, v) → d < p.1) :
    (anyRun xs).1 = some v ∧ (anyRun xs).2.1 = some d ∧ (anyRun xs).2.2 = [] := by
  obtain ⟨j0, hj0⟩ := List.mem_iff_get?.mp hmem
  have hE : (⟨d, j0, j0⟩ : TimerEntry) ∈ regTimers 0 xs := by
    have := regTimers_mem_of (i := 0) hj0
    simpa using this
  have hall : ∀ e ∈ regTimers 0 xs, d ≤ e.deadline := by
    intro e he
    obtain ⟨j, p, hg, he2⟩ := mem_regTimers he
    have hpx : p ∈ xs := List.get?_mem hg
    by_cases hp : p = (d, v)
    · subst hp
      rw [he2]
    · rw [he2]
      exact le_of_lt (hmin p hpx hp)
  have hmd : minDeadline (regTimers 0 xs) = some d := by
    cases hcase : minDeadline (regTimers 0 xs) with
    | none =>
      rw [minDeadline_eq_none hcase] at hE
      simp at hE
    | some m =>
      have h1 : m ≤ d := minDeadline_le hcase _ hE
      have h2 : d ≤ m := by
        obtain ⟨e, he, hed⟩ := minDeadline_mem hcase
        rw [← hed]
        exact hall e he
      congr 1
      omega
  have hEfired : (⟨d, j0, j0⟩ : TimerEntry) ∈ expiredOf d (regTimers 0 xs) := by
    simp [expiredOf, List.mem_filter, hE]
  obtain ⟨w, hw⟩ : ∃ w, pickWinner (expiredOf d (regTimers 0 xs)) = some w := by
    cases hcase : pickWinner (expiredOf d (regTimers 0 xs)) with
    | none =>
      rw [pickWinner_eq_none hcase] at hEfired
      simp at hEfired
    | some w => exact ⟨w, rfl⟩
  have hwmem : w ∈ expiredOf d (regTimers 0 xs) := pickWinner_mem hw
  have hwts : w ∈ regTimers 0 xs := (List.mem_filter.mp hwmem).1
  have hwle : w.deadline ≤ d := by
    have := (List.mem_filter.mp hwmem).2
    simpa using this
  obtain ⟨jw, pw, hgw, hew⟩ := mem_regTimers hwts
  have hpweq : pw = (d, v) := by
    by_cases hp : pw = (d, v)
    · exact hp
    · exfalso
      have h1 := hmin pw (List.get?_mem hgw) hp
      have h2 : w.deadline = pw.1 := by rw [hew]
      omega
  have hgw2 : xs.get? jw = some (d, v) := by
    rw [← hpweq]
    exact hgw
  have hgid : xs.get? w.id = some (d, v) := by
    rw [hew]
    simpa using hgw2
  have hrest :
      (remainingOf d (regTimers 0 xs)).filter (fun e => decide (e.id = w.id)) = [] := by
    rw [List.eq_nil_iff_forall_not_mem]
    intro e hemem
    rw [List.mem_filter] at hemem
    obtain ⟨he1, heid⟩ := hemem
    rw [remainingOf, List.mem_filter] at he1
    obtain ⟨hets, hegt⟩ := he1
    obtain ⟨je, qe, hge, hee⟩ := mem_regTimers hets
    have hid : e.id = w.id := by simpa using heid
    have hje : je = jw := by
      have h1 : e.id = 0 + je := by rw [hee]
      have h2 : w.id = 0 + jw := by rw [hew]
      omega
    have hq : qe = (d, v) := by
      rw [hje] at hge
      exact Option.some.inj (hge.symm.trans hgw2)
    have hdgt : d < e.deadline := by simpa using hegt
    have hed : e.deadline = d := by
      rw [hee, hq]
    omega
  rw [show anyRun xs
        = ((xs.get? w.id).map Prod.snd, some d,
           (remainingOf d (regTimers 0 xs)).filter (fun e => decide (e.id = w.id))) from by
    simp only [anyRun, hmd, hw]]
  refine ⟨?_, rfl, hrest⟩
  rw [hgid]
  rfl

/-- Witness for C5 at the `test_futures_any_result` durations and values:
sleeps of 204, 100, 201, 202 returning 1, 2, 3, 4; the winner is the
100 ms sleep at index 1, the result is 2, and no timers survive. -/
theorem any_result_is_min_sleep_witness :
    ((100, 2) ∈ [((204 : Int), (1 : Int)), (100, 2), (201, 3), (202, 4)]
      ∧ ∀ p ∈ [((204 : Int), (1 : Int)), (100, 2), (201, 3), (202, 4)],
          p ≠ (100, 2) → 100 < p.1)
    ∧ ((anyRun [(204, 1), (100, 2), (201, 3), (202, 4)]).1 = some 2
      ∧ (anyRun [(204, 1), (100, 2), (201, 3), (202, 4)]).2.1 = some 100
      ∧ (anyRun [(204, 1), (100, 2), (201, 3), (202, 4)]).2.2 = []) :=
  ⟨⟨by decide, by decide⟩,
   any_result_is_min_sleep [(204, 1), (100, 2), (201, 3), (202, 4)] 100 2
     (by decide) (by decide)⟩
